import Mathlib

/-!
# Verification of the evc-local-sync-plugin synchronization core

Shallow embedding of the plugin's synchronization core:

* `src/conflict-resolver.ts` — the pure conflict-resolution decision function;
* `src/sync-engine.ts` — time comparison, file-type filtering, the per-mapping
  sync run (`syncMapping`) and its dry-run counterpart (`dryRunMapping`);
* `src/sync-state-manager.ts` — the persisted snapshot store, its loader and
  the deletion-detection algorithm;
* `src/file-watcher.ts` — the debounce-by-coalescing event watcher.

Modelling conventions: JavaScript millisecond timestamps are `Int`, sizes are
`Nat`, JS strings are Lean `String`s except in the suffix-matching filter where
a filename is a `List Char`; JS `Map`s keyed by relative path are association
lists in insertion order; external effects (file I/O success, user-supplied
callbacks, content hashing) are oracle functions passed in explicitly, with
`none` denoting a thrown exception where the source can throw.
-/

namespace EvcSync

/-- The two sides of a mapping ("ai" = project side A, "obsidian" = vault side B). -/
inductive Source where
  | ai
  | obsidian
deriving DecidableEq, Repr

/-- `ResolutionDecision` from conflict-resolver.ts: "use-ai" | "use-obsidian" | "skip" | "merge". -/
inductive ResolutionDecision where
  | useAi
  | useObsidian
  | skip
  | merge
deriving DecidableEq, Repr

/-- `ConflictInfo` from conflict-resolver.ts. -/
structure ConflictInfo where
  relativePath : String
  aiPath : String
  obsidianPath : String
  aiMtime : Int
  obsidianMtime : Int
  aiSize : Nat
  obsidianSize : Nat
deriving DecidableEq, Repr

/-- `ResolutionResult` from conflict-resolver.ts. -/
structure ResolutionResult where
  conflict : ConflictInfo
  decision : ResolutionDecision
  userChosen : Bool
deriving DecidableEq, Repr

/-- `ConflictResolver.getNewerSource`: `aiTime > obsTime ? "ai" : "obsidian"`. -/
def getNewerSource (c : ConflictInfo) : Source :=
  if c.aiMtime > c.obsidianMtime then .ai else .obsidian

/-- `ConflictResolver.resolveNewerWins`. -/
def resolveNewerWins (c : ConflictInfo) : ResolutionResult :=
  { conflict := c
    decision := if getNewerSource c = .ai then .useAi else .useObsidian
    userChosen := false }

/-- `ConflictResolver.resolveAiWins`. -/
def resolveAiWins (c : ConflictInfo) : ResolutionResult :=
  { conflict := c, decision := .useAi, userChosen := false }

/-- `ConflictResolver.resolveObsidianWins`. -/
def resolveObsidianWins (c : ConflictInfo) : ResolutionResult :=
  { conflict := c, decision := .useObsidian, userChosen := false }

/-- `ConflictResolver.resolveAlwaysAsk`: returns skip, the UI layer handles the modal. -/
def resolveAlwaysAsk (c : ConflictInfo) : ResolutionResult :=
  { conflict := c, decision := .skip, userChosen := false }

/-- `ConflictResolver.resolve`: the strategy switch. The strategy is kept as a raw
string because the source's `default:` arm handles unrecognized values. -/
def resolve (strategy : String) (c : ConflictInfo) : ResolutionResult :=
  if strategy = "newer-wins" then resolveNewerWins c
  else if strategy = "ai-wins" then resolveAiWins c
  else if strategy = "obsidian-wins" then resolveObsidianWins c
  else if strategy = "always-ask" then resolveAlwaysAsk c
  else resolveNewerWins c

/-- `ConflictResolver.resolveWithUserChoice`. -/
def resolveWithUserChoice (c : ConflictInfo) (decision : ResolutionDecision) : ResolutionResult :=
  { conflict := c, decision := decision, userChosen := true }

/-- `FileInfo` from sync-engine.ts. -/
structure FileInfo where
  relativePath : String
  absolutePath : String
  mtime : Int
  size : Nat
deriving DecidableEq, Repr

/-- The result type of `SyncEngine.compareFileTimes`. -/
inductive TimeComparison where
  | same
  | aiNewer
  | obsNewer
deriving DecidableEq, Repr

/-- `SyncEngine.compareFileTimes`: files are "same" when the mtime difference is
under 1000 ms, otherwise the strictly greater mtime decides. -/
def compareFileTimes (aiFile obsFile : FileInfo) : TimeComparison :=
  if (aiFile.mtime - obsFile.mtime).natAbs < 1000 then .same
  else if aiFile.mtime > obsFile.mtime then .aiNewer
  else .obsNewer

/-- `SyncEngine.shouldIncludeFileForMapping`: suffix match of the filename against
the file-type filter; entries with a dot and length over 3 are treated as
multi-part extensions, both branches test `filename.endsWith(ext)`.
Strings are modelled as lists of characters so the suffix relation is explicit. -/
def shouldIncludeFileForMapping (filename : List Char) (fileTypes : List (List Char)) : Bool :=
  fileTypes.any fun ext =>
    if ext.contains '.' && decide (ext.length > 3) then
      ext.isSuffixOf filename
    else
      ext.isSuffixOf filename

/-- `SyncFileState` from sync-state-manager.ts. -/
structure SyncFileState where
  path : String
  hash : String
  mtime : Int
  size : Nat
deriving DecidableEq, Repr

/-- `MappingSyncState` from sync-state-manager.ts. -/
structure MappingSyncState where
  mappingId : String
  lastSyncTime : Int
  aiFiles : List SyncFileState
  obsFiles : List SyncFileState
  version : Int
deriving DecidableEq, Repr

/-- `SyncStateStore` from sync-state-manager.ts; the mapping record is an
association list keyed by mapping id. -/
structure SyncStateStore where
  mappings : List (String × MappingSyncState)
  version : Int
deriving DecidableEq, Repr

/-- `CURRENT_VERSION` from sync-state-manager.ts. -/
def CURRENT_VERSION : Int := 1

/-- The store the constructor builds: no mappings, current schema version. -/
def emptyStore : SyncStateStore :=
  { mappings := [], version := CURRENT_VERSION }

/-- The document as `JSON.parse` yields it inside `load`: the version field may be
absent (JS `undefined`), which the source's truthiness test treats like 0. -/
structure ParsedStore where
  mappings : List (String × MappingSyncState)
  version : Option Int
deriving DecidableEq, Repr

/-- JS truthiness of the parsed `version` field: absent and 0 are falsy. -/
def jsTruthy : Option Int → Bool
  | none => false
  | some v => v != 0

/-- `SyncStateManager.load`. The disk read is an explicit input: `none` means the
state file does not exist (the store keeps its previous value), `some (.error e)`
a read/parse failure (caught: reset to empty), `some (.ok data)` a parsed
document, accepted only when `data.version && data.version <= CURRENT_VERSION`. -/
def load (prev : SyncStateStore) (file : Option (Except String ParsedStore)) : SyncStateStore :=
  match file with
  | none => prev
  | some (.error _) => emptyStore
  | some (.ok data) =>
    if jsTruthy data.version && decide (data.version.getD 0 ≤ CURRENT_VERSION) then
      { mappings := data.mappings, version := data.version.getD 0 }
    else
      emptyStore

/-- `SyncStateManager.getState`: the stored entry or null. -/
def getState (store : SyncStateStore) (mappingId : String) : Option MappingSyncState :=
  store.mappings.lookup mappingId

/-- `SyncStateManager.updateState`: assign a freshly built record to the mapping's
key, replacing whatever was there. `Date.now()` is the explicit `now` input. -/
def updateState (store : SyncStateStore) (mappingId : String)
    (aiFiles obsFiles : List SyncFileState) (now : Int) : SyncStateStore :=
  { store with
    mappings :=
      (mappingId, ⟨mappingId, now, aiFiles, obsFiles, CURRENT_VERSION⟩)
        :: store.mappings.filter fun p => p.1 ≠ mappingId }

/-- `DetectedDeletion` from sync-state-manager.ts. -/
structure DetectedDeletion where
  relativePath : String
  deletedFrom : Source
  existsIn : Source
  targetPath : String
  lastState : SyncFileState
deriving DecidableEq, Repr

/-- The body of `detectDeletions`' first loop: a prior side-A file missing from
side A's current listing but present on side B becomes a deletion aimed at B. -/
def aiDeletionOf (currentAiFiles currentObsFiles : List (String × String))
    (prevFile : SyncFileState) : Option DetectedDeletion :=
  if (currentAiFiles.lookup prevFile.path).isSome then none
  else
    match currentObsFiles.lookup prevFile.path with
    | some abs => some ⟨prevFile.path, .ai, .obsidian, abs, prevFile⟩
    | none => none

/-- The body of `detectDeletions`' second loop (the side-B mirror image). -/
def obsDeletionOf (currentAiFiles currentObsFiles : List (String × String))
    (prevFile : SyncFileState) : Option DetectedDeletion :=
  if (currentObsFiles.lookup prevFile.path).isSome then none
  else
    match currentAiFiles.lookup prevFile.path with
    | some abs => some ⟨prevFile.path, .obsidian, .ai, abs, prevFile⟩
    | none => none

/-- `SyncStateManager.detectDeletions`. `previousState` is what `getState` returned;
the current listings are maps from relative path to absolute path. The second
loop runs only for bidirectional mappings. -/
def detectDeletions (previousState : Option MappingSyncState)
    (currentAiFiles currentObsFiles : List (String × String))
    (bidirectional : Bool) : List DetectedDeletion :=
  match previousState with
  | none => []
  | some prev =>
    prev.aiFiles.filterMap (aiDeletionOf currentAiFiles currentObsFiles) ++
      (if bidirectional then
        prev.obsFiles.filterMap (obsDeletionOf currentAiFiles currentObsFiles)
      else [])

/-- `SyncStateManager.buildFileState`: one `SyncFileState` per listed file whose
content hashes successfully; files whose hash throws are skipped. The hash
oracle stands for `hashFile` (MD5 of the file's bytes, keyed by absolute path). -/
def buildFileState (files : List FileInfo) (hash : String → Option String) :
    List SyncFileState :=
  files.filterMap fun f =>
    (hash f.absolutePath).map fun h => ⟨f.relativePath, h, f.mtime, f.size⟩

/-! ## File watcher (file-watcher.ts) -/

/-- The raw event kinds chokidar reports ("add" | "change" | "unlink"). -/
inductive EvType where
  | add
  | change
  | unlink
deriving DecidableEq, Repr

/-- `FileChangeEvent` from file-watcher.ts; the mapping object is represented by
its id, which is all the pending-map key uses. -/
structure FileChangeEvent where
  path : String
  relativePath : String
  ty : EvType
  mappingId : String
  source : Source
deriving DecidableEq, Repr

/-- The `eventKey` built in `handleFileEvent`: mapping id, side and path. -/
def eventKey (e : FileChangeEvent) : String :=
  e.mappingId ++ ":" ++ (match e.source with | .ai => "ai" | .obsidian => "obsidian")
    ++ ":" ++ e.relativePath

/-- JS `Map.set`: replace in place when the key exists, append otherwise. -/
def mapSet (m : List (String × FileChangeEvent)) (k : String) (v : FileChangeEvent) :
    List (String × FileChangeEvent) :=
  match m with
  | [] => [(k, v)]
  | (k', v') :: rest => if k' = k then (k, v) :: rest else (k', v') :: mapSet rest k v

/-- The watcher's mutable state: the pending-event map and the absolute deadline
of the debounce timer, when one is armed. -/
structure WatcherState where
  pendingEvents : List (String × FileChangeEvent)
  debounceTimer : Option Int
deriving DecidableEq, Repr

/-- `FileWatcher.handleFileEvent` at wall-clock time `t` with idle window
`debounceMs`: record the event under its key (overwriting any pending event for
the same key), clear the running timer and arm a fresh one `debounceMs` ahead. -/
def handleFileEvent (debounceMs : Int) (t : Int) (e : FileChangeEvent)
    (s : WatcherState) : WatcherState :=
  { pendingEvents := mapSet s.pendingEvents (eventKey e) e
    debounceTimer := some (t + debounceMs) }

/-- One flush: the batch delivered to each registered callback at the time the
timer fired. Callbacks are abstract identifiers. -/
structure FlushRecord where
  time : Int
  deliveries : List (Nat × List FileChangeEvent)
deriving DecidableEq, Repr

/-- `FileWatcher.flushPendingEvents`, fired by the timer at its deadline: with no
pending events it only spends the timer; otherwise the batch (the pending map's
values) goes to every registered callback and the map is cleared. -/
def fireTimer (callbacks : List Nat) (time : Int) (s : WatcherState) :
    List FlushRecord × WatcherState :=
  if s.pendingEvents.isEmpty then
    ([], { s with debounceTimer := none })
  else
    ([⟨time, callbacks.map fun c => (c, s.pendingEvents.map (·.2))⟩],
      { pendingEvents := [], debounceTimer := none })

/-- Run the watcher over a time-ordered trace of raw events. Before an event at
time `t` is handled, an armed timer whose deadline is at or before `t` fires;
after the trace, a still-armed timer fires at its deadline. This is the
cooperative single-threaded scheduling of the source's timer and callbacks. -/
def runWatcher (debounceMs : Int) (callbacks : List Nat) :
    WatcherState → List (Int × FileChangeEvent) → WatcherState × List FlushRecord
  | s, [] =>
    match s.debounceTimer with
    | some d =>
      let (fs, s') := fireTimer callbacks d s
      (s', fs)
    | none => (s, [])
  | s, (t, e) :: rest =>
    match s.debounceTimer with
    | some d =>
      if d ≤ t then
        let (fs, s') := fireTimer callbacks d s
        let (s'', fs') := runWatcher debounceMs callbacks (handleFileEvent debounceMs t e s') rest
        (s'', fs ++ fs')
      else
        runWatcher debounceMs callbacks (handleFileEvent debounceMs t e s) rest
    | none => runWatcher debounceMs callbacks (handleFileEvent debounceMs t e s) rest

/-! ## Sync engine (sync-engine.ts) -/

/-- `SyncAction` from sync-engine.ts. -/
inductive SyncAction where
  | copy
  | update
  | skip
  | conflict
  | delete
deriving DecidableEq, Repr

/-- `SyncDirectionType` from sync-engine.ts ("ai-to-obs" | "obs-to-ai"). -/
inductive SyncDirectionType where
  | aiToObs
  | obsToAi
deriving DecidableEq, Repr

/-- `SyncFileResult` from sync-engine.ts. -/
structure SyncFileResult where
  file : String
  action : SyncAction
  direction : SyncDirectionType
  success : Bool
  error : Option String
deriving DecidableEq, Repr

/-- `ProjectMapping` from settings.ts, restricted to the fields the engine's
reconciliation reads (UI-only fields and the listing filters, which are applied
before the listings reach the engine core, are omitted). -/
structure ProjectMapping where
  id : String
  bidirectional : Bool
  syncDirection : Option SyncDirectionType
  conflictResolutionOverride : Option String
deriving DecidableEq, Repr

/-- The global settings `syncMapping` reads. -/
structure EngineSettings where
  conflictResolution : String
  syncDeletions : Bool
  confirmDeletions : Bool
deriving DecidableEq, Repr

/-- `getEffectiveConflictResolution`: the per-mapping override, or the global
default (`mapping.conflictResolutionOverride ?? globalSettings.conflictResolution`). -/
def getEffectiveConflictResolution (mapping : ProjectMapping)
    (globalSettings : EngineSettings) : String :=
  mapping.conflictResolutionOverride.getD globalSettings.conflictResolution

/-- `getEffectiveFileTypes` (sync-state-manager.ts):
`mapping.fileTypesOverride ?? globalSettings.fileTypes`. -/
def getEffectiveFileTypes (fileTypesOverride : Option (List (List Char)))
    (globalFileTypes : List (List Char)) : List (List Char) :=
  fileTypesOverride.getD globalFileTypes

/-- `SyncResult` from sync-engine.ts (wall-clock start/end/duration omitted). -/
structure SyncResult where
  files : List SyncFileResult
  filesProcessed : Nat
  filesCopied : Nat
  filesSkipped : Nat
  filesDeleted : Nat
  conflicts : List ConflictInfo
  errors : List String
  success : Bool
  error : Option String
deriving DecidableEq, Repr

/-- `PlannedSyncAction` from sync-engine.ts. -/
structure PlannedSyncAction where
  file : String
  action : SyncAction
  direction : SyncDirectionType
  sourcePath : String
  targetPath : String
  reason : String
deriving DecidableEq, Repr

/-- `DryRunResult` from sync-engine.ts (the mapping field is implicit). -/
structure DryRunResult where
  plannedActions : List PlannedSyncAction
  plannedDeletions : List DetectedDeletion
  errors : List String
deriving DecidableEq, Repr

/-- The oracles standing for `syncMapping`'s external effects: per-file I/O
success, the registered callbacks (with `none` for a callback that throws),
path validation, vault-folder creation and content hashing. -/
structure SyncEnv where
  copyOk : SyncDirectionType → String → Bool
  deleteOk : DetectedDeletion → Bool
  hasDeletionCallback : Bool
  confirmAnswer : Option Bool
  hasConflictCallback : Bool
  userDecision : String → Option ResolutionDecision
  validOk : Bool
  ensureOk : Bool
  hash : String → Option String

/-- The mutable accumulators of one `syncMapping` run: the per-file results, the
conflicts and errors lists and the three counters. -/
structure Acc where
  files : List SyncFileResult
  conflicts : List ConflictInfo
  errors : List String
  filesCopied : Nat
  filesSkipped : Nat
  filesDeleted : Nat
deriving DecidableEq, Repr

/-- The accumulators at the start of a run. -/
def acc0 : Acc := ⟨[], [], [], 0, 0, 0⟩

/-- Append one per-file result, bumping the counter its success feeds. -/
def pushCopied (acc : Acc) (r : SyncFileResult) : Acc :=
  { acc with files := acc.files ++ [r], filesCopied := acc.filesCopied + 1 }

/-- Append a skip result (always successful in the source). -/
def pushSkipped (acc : Acc) (r : SyncFileResult) : Acc :=
  { acc with files := acc.files ++ [r], filesSkipped := acc.filesSkipped + 1 }

/-- Append a failed result and its error message. -/
def pushFailed (acc : Acc) (r : SyncFileResult) (msg : String) : Acc :=
  { acc with files := acc.files ++ [r], errors := acc.errors ++ [msg] }

/-- `Map.get` on a listing keyed by relative path. -/
def lookupFile (files : List FileInfo) (p : String) : Option FileInfo :=
  files.find? fun f => f.relativePath == p

/-- A listing as the (relative path ↦ absolute path) map `detectDeletions` reads. -/
def toPathMap (files : List FileInfo) : List (String × String) :=
  files.map fun f => (f.relativePath, f.absolutePath)

/-- The deletions `syncMapping`/`dryRunMapping` act on: `detectDeletions` against
the prior snapshot, run only when deletion sync is enabled. -/
def deletionsOf (mapping : ProjectMapping) (settings : EngineSettings)
    (store : SyncStateStore) (aiFiles obsFiles : List FileInfo) : List DetectedDeletion :=
  if settings.syncDeletions then
    detectDeletions (getState store mapping.id) (toPathMap aiFiles) (toPathMap obsFiles)
      mapping.bidirectional
  else []

/-- One accepted deletion inside `syncMapping`'s deletion pass: delete the
still-existing copy (its success given by the oracle), record the outcome, and
on success drop the path from the side's current-listing map. -/
def deletionStep (env : SyncEnv) (st : Acc × List FileInfo × List FileInfo)
    (d : DetectedDeletion) : Acc × List FileInfo × List FileInfo :=
  let (acc, aiMap, obsMap) := st
  let dir : SyncDirectionType := if d.existsIn = .obsidian then .aiToObs else .obsToAi
  if env.deleteOk d then
    let acc' :=
      { acc with
        files := acc.files ++ [⟨d.relativePath, .delete, dir, true, none⟩]
        filesDeleted := acc.filesDeleted + 1 }
    if d.existsIn = .obsidian then
      (acc', aiMap, obsMap.filter fun f => f.relativePath ≠ d.relativePath)
    else
      (acc', aiMap.filter fun f => f.relativePath ≠ d.relativePath, obsMap)
  else
    let msg := "Failed to delete " ++ d.relativePath
    (pushFailed acc ⟨d.relativePath, .delete, dir, false, some msg⟩ msg, aiMap, obsMap)

/-- The tail of one AI→Obsidian reconciliation once a resolution decision is in
hand: use-ai copies toward Obsidian, use-obsidian copies toward the project only
for bidirectional mappings, anything else is a recorded skip. -/
def applyResolution (bidirectional : Bool) (env : SyncEnv) (relativePath : String)
    (decision : ResolutionDecision) (acc : Acc) : Acc :=
  if decision = .useAi then
    if env.copyOk .aiToObs relativePath then
      pushCopied acc ⟨relativePath, .update, .aiToObs, true, none⟩
    else
      let msg := "Failed to update " ++ relativePath
      pushFailed acc ⟨relativePath, .update, .aiToObs, false, some msg⟩ msg
  else if decision = .useObsidian ∧ bidirectional then
    if env.copyOk .obsToAi relativePath then
      pushCopied acc ⟨relativePath, .update, .obsToAi, true, none⟩
    else
      let msg := "Failed to update " ++ relativePath
      pushFailed acc ⟨relativePath, .update, .obsToAi, false, some msg⟩ msg
  else
    pushSkipped acc ⟨relativePath, .skip, .aiToObs, true, none⟩

/-- One iteration of `syncMapping`'s AI→Obsidian loop. An `Except.error` is the
uncaught exception of the conflict-modal callback, carrying the accumulators at
the throw (the outer catch builds the partial result from them). -/
def processAiFile (strategy : String) (bidirectional : Bool) (env : SyncEnv)
    (obsMap : List FileInfo) (acc : Acc) (aiFile : FileInfo) :
    Except (Acc × String) Acc :=
  match lookupFile obsMap aiFile.relativePath with
  | none =>
    if env.copyOk .aiToObs aiFile.relativePath then
      .ok (pushCopied acc ⟨aiFile.relativePath, .copy, .aiToObs, true, none⟩)
    else
      let msg := "Failed to copy " ++ aiFile.relativePath
      .ok (pushFailed acc ⟨aiFile.relativePath, .copy, .aiToObs, false, some msg⟩ msg)
  | some obsFile =>
    if compareFileTimes aiFile obsFile = .same then
      .ok (pushSkipped acc ⟨aiFile.relativePath, .skip, .aiToObs, true, none⟩)
    else
      let conflictInfo : ConflictInfo :=
        ⟨aiFile.relativePath, aiFile.absolutePath, obsFile.absolutePath,
          aiFile.mtime, obsFile.mtime, aiFile.size, obsFile.size⟩
      let acc' := { acc with conflicts := acc.conflicts ++ [conflictInfo] }
      if strategy = "always-ask" ∧ env.hasConflictCallback then
        match env.userDecision aiFile.relativePath with
        | none => .error (acc', "conflict modal callback failed")
        | some userDecision =>
          .ok (applyResolution bidirectional env aiFile.relativePath
            (resolveWithUserChoice conflictInfo userDecision).decision acc')
      else
        .ok (applyResolution bidirectional env aiFile.relativePath
          (resolve strategy conflictInfo).decision acc')

/-- One iteration of the Obsidian→AI loop of a bidirectional mapping: copy the
Obsidian-only files; shared paths were handled by the AI→Obsidian loop. -/
def processObsFileBidir (env : SyncEnv) (aiMap : List FileInfo) (acc : Acc)
    (obsFile : FileInfo) : Acc :=
  if (lookupFile aiMap obsFile.relativePath).isSome then acc
  else if env.copyOk .obsToAi obsFile.relativePath then
    pushCopied acc ⟨obsFile.relativePath, .copy, .obsToAi, true, none⟩
  else
    let msg := "Failed to copy " ++ obsFile.relativePath
    pushFailed acc ⟨obsFile.relativePath, .copy, .obsToAi, false, some msg⟩ msg

/-- One iteration of the Obsidian→AI loop of a unidirectional obs-to-ai mapping:
copy Obsidian-only files, and push Obsidian's version when it is strictly newer
and outside the tolerance; otherwise record nothing. -/
def processObsFileUni (env : SyncEnv) (aiMap : List FileInfo) (acc : Acc)
    (obsFile : FileInfo) : Acc :=
  match lookupFile aiMap obsFile.relativePath with
  | none =>
    if env.copyOk .obsToAi obsFile.relativePath then
      pushCopied acc ⟨obsFile.relativePath, .copy, .obsToAi, true, none⟩
    else
      let msg := "Failed to copy " ++ obsFile.relativePath
      pushFailed acc ⟨obsFile.relativePath, .copy, .obsToAi, false, some msg⟩ msg
  | some aiFile =>
    if compareFileTimes aiFile obsFile ≠ .same ∧ obsFile.mtime > aiFile.mtime then
      if env.copyOk .obsToAi obsFile.relativePath then
        pushCopied acc ⟨obsFile.relativePath, .update, .obsToAi, true, none⟩
      else
        let msg := "Failed to update " ++ obsFile.relativePath
        pushFailed acc ⟨obsFile.relativePath, .update, .obsToAi, false, some msg⟩ msg
    else acc

/-- The structured result the outer catch of `syncMapping` returns: the records
accumulated so far, the thrown message appended to the errors, success false. -/
def errorResult (acc : Acc) (msg : String) : SyncResult :=
  { files := acc.files
    filesProcessed := acc.files.length
    filesCopied := acc.filesCopied
    filesSkipped := acc.filesSkipped
    filesDeleted := acc.filesDeleted
    conflicts := acc.conflicts
    errors := acc.errors ++ [msg]
    success := false
    error := some msg }

/-- The result of a run that reached the end of the mapping's file loops. -/
def okResult (acc : Acc) : SyncResult :=
  { files := acc.files
    filesProcessed := acc.files.length
    filesCopied := acc.filesCopied
    filesSkipped := acc.filesSkipped
    filesDeleted := acc.filesDeleted
    conflicts := acc.conflicts
    errors := acc.errors
    success := acc.errors.isEmpty
    error := none }

/-- `syncMapping`'s deletion pass: skipped when nothing was detected; when
confirmation is required and a confirmation callback is registered, the callback
decides (or throws); otherwise every detected deletion is applied. -/
def deletionPhase (settings : EngineSettings) (env : SyncEnv)
    (deletions : List DetectedDeletion) (aiFiles obsFiles : List FileInfo) :
    Except (Acc × String) (Acc × List FileInfo × List FileInfo) :=
  if deletions.isEmpty then .ok (acc0, aiFiles, obsFiles)
  else if settings.confirmDeletions && env.hasDeletionCallback then
    match env.confirmAnswer with
    | none => .error (acc0, "deletion confirmation callback failed")
    | some shouldDelete =>
      if shouldDelete then .ok (deletions.foldl (deletionStep env) (acc0, aiFiles, obsFiles))
      else .ok (acc0, aiFiles, obsFiles)
  else
    .ok (deletions.foldl (deletionStep env) (acc0, aiFiles, obsFiles))

/-- The two reconciliation loops of `syncMapping`: AI→Obsidian over the whole
AI map, then Obsidian→AI for bidirectional mappings (Obsidian-only copies) or
for explicit obs-to-ai unidirectional mappings. -/
def mainLoops (mapping : ProjectMapping) (effStrategy : String) (env : SyncEnv)
    (aiMap obsMap : List FileInfo) (acc1 : Acc) : Except (Acc × String) Acc :=
  match aiMap.foldlM (processAiFile effStrategy mapping.bidirectional env obsMap) acc1 with
  | .error e => .error e
  | .ok acc2 =>
    if mapping.bidirectional then
      .ok (obsMap.foldl (processObsFileBidir env aiMap) acc2)
    else if mapping.syncDirection = some .obsToAi then
      .ok (obsMap.foldl (processObsFileUni env aiMap) acc2)
    else
      .ok acc2

/-- `syncMapping`'s step 7: overwrite the mapping's snapshot — but only when
deletion sync is enabled. -/
def snapshotStep (mapping : ProjectMapping) (settings : EngineSettings) (env : SyncEnv)
    (store : SyncStateStore) (aiFiles obsFiles : List FileInfo) (now : Int) :
    SyncStateStore :=
  if settings.syncDeletions then
    updateState store mapping.id (buildFileState aiFiles env.hash)
      (buildFileState obsFiles env.hash) now
  else store

/-- `SyncEngine.syncMapping` as a pure function of the mapping, the settings, the
effect oracles, the snapshot store and the two current listings; returns the
`SyncResult` and the snapshot store after the run. `now` is `Date.now()` at the
snapshot write. -/
def syncMappingModel (mapping : ProjectMapping) (settings : EngineSettings)
    (env : SyncEnv) (store : SyncStateStore) (aiFiles obsFiles : List FileInfo)
    (now : Int) : SyncResult × SyncStateStore :=
  if !env.validOk then
    (errorResult acc0 "AI docs path does not exist", store)
  else if !env.ensureOk then
    (errorResult acc0 "Failed to create Obsidian folder", store)
  else
    match deletionPhase settings env (deletionsOf mapping settings store aiFiles obsFiles)
        aiFiles obsFiles with
    | .error (acc, msg) => (errorResult acc msg, store)
    | .ok (acc1, aiMap, obsMap) =>
      match mainLoops mapping (getEffectiveConflictResolution mapping settings) env
          aiMap obsMap acc1 with
      | .error (acc, msg) => (errorResult acc msg, store)
      | .ok acc3 =>
        (okResult acc3, snapshotStep mapping settings env store aiFiles obsFiles now)

/-- `path.join`, as far as the dry-run plans need it. -/
def joinPath (a b : String) : String := a ++ "/" ++ b

/-- The body of `dryRunMapping`'s AI→Obsidian planning loop. -/
def planAi (bidirectional : Bool) (obsDocsPath : String) (obsFiles : List FileInfo)
    (aiFile : FileInfo) : Option PlannedSyncAction :=
  match lookupFile obsFiles aiFile.relativePath with
  | none =>
    some ⟨aiFile.relativePath, .copy, .aiToObs, aiFile.absolutePath,
      joinPath obsDocsPath aiFile.relativePath, "File exists only in AI project"⟩
  | some obsFile =>
    match compareFileTimes aiFile obsFile with
    | .aiNewer =>
      some ⟨aiFile.relativePath, .update, .aiToObs, aiFile.absolutePath,
        obsFile.absolutePath, "AI version is newer"⟩
    | .obsNewer =>
      if !bidirectional then
        some ⟨aiFile.relativePath, .skip, .aiToObs, aiFile.absolutePath,
          obsFile.absolutePath, "Obsidian version is newer (unidirectional sync)"⟩
      else none
    | .same => none

/-- The body of `dryRunMapping`'s Obsidian→AI planning loop. -/
def planObs (bidirectional : Bool) (aiDocsPath : String) (aiFiles : List FileInfo)
    (obsFile : FileInfo) : Option PlannedSyncAction :=
  match lookupFile aiFiles obsFile.relativePath with
  | none =>
    some ⟨obsFile.relativePath, .copy, .obsToAi, obsFile.absolutePath,
      joinPath aiDocsPath obsFile.relativePath, "File exists only in Obsidian"⟩
  | some aiFile =>
    if bidirectional then
      match compareFileTimes aiFile obsFile with
      | .obsNewer =>
        some ⟨obsFile.relativePath, .update, .obsToAi, obsFile.absolutePath,
          aiFile.absolutePath, "Obsidian version is newer"⟩
      | _ => none
    else none

/-- `SyncEngine.dryRunMapping` as a pure function of the same inputs (minus the
I/O oracles it never consults). -/
def dryRunMappingModel (mapping : ProjectMapping) (settings : EngineSettings)
    (store : SyncStateStore) (aiFiles obsFiles : List FileInfo)
    (validOk : Bool) (aiDocsPath obsDocsPath : String) : DryRunResult :=
  if !validOk then
    { plannedActions := [], plannedDeletions := [], errors := ["AI docs path does not exist"] }
  else
    { plannedActions :=
        aiFiles.filterMap (planAi mapping.bidirectional obsDocsPath obsFiles) ++
          (if mapping.bidirectional || mapping.syncDirection = some .obsToAi then
            obsFiles.filterMap (planObs mapping.bidirectional aiDocsPath aiFiles)
          else [])
      plannedDeletions := deletionsOf mapping settings store aiFiles obsFiles
      errors := [] }

/-- The action/direction projection of a planned action, for comparing a dry-run
plan with an executed run. -/
def projPlan (a : PlannedSyncAction) : String × SyncAction × SyncDirectionType :=
  (a.file, a.action, a.direction)

/-- The action/direction projection of an executed per-file result. -/
def projRes (r : SyncFileResult) : String × SyncAction × SyncDirectionType :=
  (r.file, r.action, r.direction)

/-- The pairs the engine's time comparison classifies as unchanged: the path is
on both sides and the mtimes are within the tolerance. -/
def inTolerance (aiFiles obsFiles : List FileInfo) (p : String) : Bool :=
  match lookupFile aiFiles p, lookupFile obsFiles p with
  | some a, some o => decide (compareFileTimes a o = .same)
  | _, _ => false

/-- The paths present on both sides whose Obsidian copy is newer beyond the
tolerance (the cross-direction updates of a bidirectional reconciliation). -/
def bothObsNewer (aiFiles obsFiles : List FileInfo) (p : String) : Bool :=
  match lookupFile aiFiles p, lookupFile obsFiles p with
  | some a, some o => decide (compareFileTimes a o = .obsNewer)
  | _, _ => false

/-- The one record `syncMapping`'s AI→Obsidian loop appends for a file under the
newer-wins strategy (derived shape of `processAiFile`, proved below). -/
def loop1Record (bidirectional : Bool) (env : SyncEnv) (obsMap : List FileInfo)
    (aiFile : FileInfo) : SyncFileResult :=
  match lookupFile obsMap aiFile.relativePath with
  | none =>
    if env.copyOk .aiToObs aiFile.relativePath then
      ⟨aiFile.relativePath, .copy, .aiToObs, true, none⟩
    else
      ⟨aiFile.relativePath, .copy, .aiToObs, false,
        some ("Failed to copy " ++ aiFile.relativePath)⟩
  | some obsFile =>
    match compareFileTimes aiFile obsFile with
    | .same => ⟨aiFile.relativePath, .skip, .aiToObs, true, none⟩
    | .aiNewer =>
      if env.copyOk .aiToObs aiFile.relativePath then
        ⟨aiFile.relativePath, .update, .aiToObs, true, none⟩
      else
        ⟨aiFile.relativePath, .update, .aiToObs, false,
          some ("Failed to update " ++ aiFile.relativePath)⟩
    | .obsNewer =>
      if bidirectional then
        if env.copyOk .obsToAi aiFile.relativePath then
          ⟨aiFile.relativePath, .update, .obsToAi, true, none⟩
        else
          ⟨aiFile.relativePath, .update, .obsToAi, false,
            some ("Failed to update " ++ aiFile.relativePath)⟩
      else
        ⟨aiFile.relativePath, .skip, .aiToObs, true, none⟩

/-- The optional record the bidirectional Obsidian→AI loop appends for a file
(derived shape of `processObsFileBidir`, proved below). -/
def loop2Record (env : SyncEnv) (aiMap : List FileInfo) (obsFile : FileInfo) :
    Option SyncFileResult :=
  if (lookupFile aiMap obsFile.relativePath).isSome then none
  else if env.copyOk .obsToAi obsFile.relativePath then
    some ⟨obsFile.relativePath, .copy, .obsToAi, true, none⟩
  else
    some ⟨obsFile.relativePath, .copy, .obsToAi, false,
      some ("Failed to copy " ++ obsFile.relativePath)⟩

/-! ## Theorems -/

/-- A conflict whose two sides carry the same modification time. -/
def tieConflict : ConflictInfo :=
  ⟨"notes.md", "/proj/notes.md", "/vault/notes.md", 1700000000000, 1700000000000, 42, 42⟩

/-- C1 (counterexample): with exactly equal modification times the newer-wins
resolver decides for the Obsidian side (side B), not the project/AI side (side A)
as the claim states. -/
theorem newerWins_tie_not_sideA :
    tieConflict.aiMtime = tieConflict.obsidianMtime ∧
    (resolve "newer-wins" tieConflict).decision ≠ ResolutionDecision.useAi ∧
    (resolve "newer-wins" tieConflict).decision = ResolutionDecision.useObsidian := by
  decide

theorem resolveNewerWins_decision (c : ConflictInfo) :
    (resolveNewerWins c).decision =
      (if c.obsidianMtime < c.aiMtime then ResolutionDecision.useAi
       else ResolutionDecision.useObsidian) := by
  unfold resolveNewerWins getNewerSource
  by_cases h : c.obsidianMtime < c.aiMtime <;> simp [h]

/-- C1 (amended): under the newer-wins strategy the side with the strictly later
modification time wins, and an exact tie is decided for the Obsidian side
(side B): the decision is use-ai exactly when the AI mtime is strictly greater. -/
theorem newerWins_later_timestamp_wins (c : ConflictInfo) :
    (resolve "newer-wins" c).decision =
      (if c.obsidianMtime < c.aiMtime then ResolutionDecision.useAi
       else ResolutionDecision.useObsidian) :=
  resolveNewerWins_decision c

/-- C5: `compareFileTimes` classifies a pair as "same" exactly when the absolute
mtime difference is under 1000 ms; from 1000 ms on, the strictly greater mtime
decides the direction. -/
theorem compareFileTimes_tolerance (a b : FileInfo) :
    (compareFileTimes a b = .same ↔ (a.mtime - b.mtime).natAbs < 1000) ∧
    (1000 ≤ (a.mtime - b.mtime).natAbs →
      compareFileTimes a b =
        (if b.mtime < a.mtime then TimeComparison.aiNewer else TimeComparison.obsNewer)) := by
  unfold compareFileTimes
  by_cases h : (a.mtime - b.mtime).natAbs < 1000
  · simp [h]
  · by_cases h2 : a.mtime > b.mtime <;> simp [h, h2]

/-- C6: ai-wins always decides use-ai and obsidian-wins always use-obsidian,
whatever the conflict's timestamps and sizes; always-ask returns skip; and any
strategy string outside the recognized set falls back to newer-wins. -/
theorem resolve_fixed_strategies (c : ConflictInfo) (s : String) :
    (resolve "ai-wins" c).decision = ResolutionDecision.useAi ∧
    (resolve "obsidian-wins" c).decision = ResolutionDecision.useObsidian ∧
    (resolve "always-ask" c).decision = ResolutionDecision.skip ∧
    (s ∉ (["newer-wins", "ai-wins", "obsidian-wins", "always-ask"] : List String) →
      resolve s c = resolveNewerWins c) := by
  refine ⟨rfl, rfl, rfl, fun h => ?_⟩
  simp only [List.mem_cons, List.mem_singleton, not_or] at h
  obtain ⟨h1, h2, h3, h4, -⟩ := h
  simp [resolve, h1, h2, h3, h4]

/-- C7: loading a persisted document whose schema version is beyond
`CURRENT_VERSION` resets the store to empty, and so does any read/parse failure;
the empty store has no mappings. -/
theorem load_forward_version_or_failure_resets (prev : SyncStateStore)
    (data : ParsedStore) (e : String) :
    (∀ v, data.version = some v → CURRENT_VERSION < v →
      load prev (some (.ok data)) = emptyStore) ∧
    load prev (some (.error e)) = emptyStore ∧
    emptyStore.mappings = [] := by
  refine ⟨fun v hv hgt => ?_, rfl, rfl⟩
  have hle : ¬ (v ≤ CURRENT_VERSION) := by omega
  simp [load, jsTruthy, hv, hle]

/-- C9: a file passes the type filter exactly when some filter entry is a suffix
of its name; each entry — simple or compound (multi-dot) — is tested against the
filename independently, as the full suffix. -/
theorem shouldInclude_iff_suffix (filename : List Char) (fileTypes : List (List Char)) :
    shouldIncludeFileForMapping filename fileTypes = true ↔
      ∃ ext ∈ fileTypes, ext <:+ filename := by
  unfold shouldIncludeFileForMapping
  simp [List.any_eq_true, List.isSuffixOf_iff_suffix]

/-! ### Deletion detection (C4) -/

theorem aiDeletionOf_eq_some {curAi curObs : List (String × String)}
    {f : SyncFileState} {d : DetectedDeletion} :
    aiDeletionOf curAi curObs f = some d ↔
      curAi.lookup f.path = none ∧
        ∃ abs, curObs.lookup f.path = some abs ∧ d = ⟨f.path, .ai, .obsidian, abs, f⟩ := by
  unfold aiDeletionOf
  cases hai : curAi.lookup f.path <;> cases hobs : curObs.lookup f.path <;>
    simp [hai, hobs, eq_comm]

theorem obsDeletionOf_eq_some {curAi curObs : List (String × String)}
    {f : SyncFileState} {d : DetectedDeletion} :
    obsDeletionOf curAi curObs f = some d ↔
      curObs.lookup f.path = none ∧
        ∃ abs, curAi.lookup f.path = some abs ∧ d = ⟨f.path, .obsidian, .ai, abs, f⟩ := by
  unfold obsDeletionOf
  cases hai : curAi.lookup f.path <;> cases hobs : curObs.lookup f.path <;>
    simp [hai, hobs, eq_comm]

theorem mem_detectDeletions (prev : MappingSyncState)
    (curAi curObs : List (String × String)) (b : Bool) (d : DetectedDeletion) :
    d ∈ detectDeletions (some prev) curAi curObs b ↔
      (d.deletedFrom = .ai ∧ d.existsIn = .obsidian ∧
        d.lastState ∈ prev.aiFiles ∧ d.relativePath = d.lastState.path ∧
        curAi.lookup d.relativePath = none ∧
        curObs.lookup d.relativePath = some d.targetPath) ∨
      (b = true ∧ d.deletedFrom = .obsidian ∧ d.existsIn = .ai ∧
        d.lastState ∈ prev.obsFiles ∧ d.relativePath = d.lastState.path ∧
        curObs.lookup d.relativePath = none ∧
        curAi.lookup d.relativePath = some d.targetPath) := by
  have hA : d ∈ prev.aiFiles.filterMap (aiDeletionOf curAi curObs) ↔
      (d.deletedFrom = .ai ∧ d.existsIn = .obsidian ∧
        d.lastState ∈ prev.aiFiles ∧ d.relativePath = d.lastState.path ∧
        curAi.lookup d.relativePath = none ∧
        curObs.lookup d.relativePath = some d.targetPath) := by
    simp only [List.mem_filterMap, aiDeletionOf_eq_some]
    constructor
    · rintro ⟨f, hf, h1, abs, h2, rfl⟩
      exact ⟨rfl, rfl, hf, rfl, h1, h2⟩
    · rintro ⟨hdf, hex, hmem, hrp, h1, h2⟩
      refine ⟨d.lastState, hmem, hrp ▸ h1, d.targetPath, hrp ▸ h2, ?_⟩
      cases d
      simp_all
  have hB : d ∈ prev.obsFiles.filterMap (obsDeletionOf curAi curObs) ↔
      (d.deletedFrom = .obsidian ∧ d.existsIn = .ai ∧
        d.lastState ∈ prev.obsFiles ∧ d.relativePath = d.lastState.path ∧
        curObs.lookup d.relativePath = none ∧
        curAi.lookup d.relativePath = some d.targetPath) := by
    simp only [List.mem_filterMap, obsDeletionOf_eq_some]
    constructor
    · rintro ⟨f, hf, h1, abs, h2, rfl⟩
      exact ⟨rfl, rfl, hf, rfl, h1, h2⟩
    · rintro ⟨hdf, hex, hmem, hrp, h1, h2⟩
      refine ⟨d.lastState, hmem, hrp ▸ h1, d.targetPath, hrp ▸ h2, ?_⟩
      cases d
      simp_all
  unfold detectDeletions
  cases b <;> simp [List.mem_append, hA, hB]

/-- C4: with a prior snapshot, each prior side-A path now missing from side A but
present on side B yields exactly one `DetectedDeletion` (deleted-from A,
exists-in B, target = B's absolute path); every emitted deletion arises this way,
the side-B check contributing only for bidirectional mappings; and with no prior
snapshot the result is empty. -/
theorem detectDeletions_correct (prev : MappingSyncState)
    (curAi curObs : List (String × String)) (b : Bool) (f : SyncFileState)
    (abs : String)
    (hnd : (prev.aiFiles.map SyncFileState.path).Nodup)
    (hf : f ∈ prev.aiFiles)
    (h1 : curAi.lookup f.path = none)
    (h2 : curObs.lookup f.path = some abs) :
    (∀ cA cO b', detectDeletions none cA cO b' = []) ∧
    (∀ d, d ∈ detectDeletions (some prev) curAi curObs b ↔
      (d.deletedFrom = .ai ∧ d.existsIn = .obsidian ∧
        d.lastState ∈ prev.aiFiles ∧ d.relativePath = d.lastState.path ∧
        curAi.lookup d.relativePath = none ∧
        curObs.lookup d.relativePath = some d.targetPath) ∨
      (b = true ∧ d.deletedFrom = .obsidian ∧ d.existsIn = .ai ∧
        d.lastState ∈ prev.obsFiles ∧ d.relativePath = d.lastState.path ∧
        curObs.lookup d.relativePath = none ∧
        curAi.lookup d.relativePath = some d.targetPath)) ∧
    (detectDeletions (some prev) curAi curObs b).count
      ⟨f.path, .ai, .obsidian, abs, f⟩ = 1 := by
  refine ⟨fun _ _ _ => rfl, mem_detectDeletions prev curAi curObs b, ?_⟩
  unfold detectDeletions
  rw [List.count_append]
  have hcA : (prev.aiFiles.filterMap (aiDeletionOf curAi curObs)).count
      ⟨f.path, .ai, .obsidian, abs, f⟩ = 1 := by
    rw [List.count_filterMap]
    have heq : List.countP
        (fun a => aiDeletionOf curAi curObs a ==
          some ⟨f.path, .ai, .obsidian, abs, f⟩) prev.aiFiles =
        List.countP (fun x => x == f) prev.aiFiles := by
      refine List.countP_congr fun x hx => ?_
      simp only [beq_iff_eq, aiDeletionOf_eq_some]
      constructor
      · rintro ⟨hl1, abs', hl2, heqd⟩
        exact congrArg DetectedDeletion.lastState heqd.symm
      · rintro rfl
        exact ⟨h1, abs, h2, rfl⟩
    rw [heq, ← List.count_eq_countP]
    exact List.count_eq_one_of_mem (hnd.of_map _) hf
  have hcB : ((if b then prev.obsFiles.filterMap (obsDeletionOf curAi curObs)
      else []) : List DetectedDeletion).count ⟨f.path, .ai, .obsidian, abs, f⟩ = 0 := by
    cases b
    · simp
    · simp only [if_pos]
      rw [List.count_filterMap, List.countP_eq_zero]
      intro x hx
      simp only [beq_iff_eq, obsDeletionOf_eq_some, not_and]
      rintro h3 ⟨abs', h4, heqd⟩
      exact absurd (congrArg DetectedDeletion.deletedFrom heqd) (by simp)
  omega

/-- The prior snapshot of the C4 witness: one side-A file, `gone.md`. -/
def prevW : MappingSyncState :=
  ⟨"m1", 10, [⟨"gone.md", "h1", 0, 1⟩], [], 1⟩

/-- C4 witness: on a concrete snapshot and listings, `gone.md` (deleted on side A,
still on side B) is reported exactly once. -/
theorem detectDeletions_correct_witness :
    (detectDeletions (some prevW) [] [("gone.md", "/vault/gone.md")] false).count
      ⟨"gone.md", .ai, .obsidian, "/vault/gone.md", ⟨"gone.md", "h1", 0, 1⟩⟩ = 1 :=
  (detectDeletions_correct prevW [] [("gone.md", "/vault/gone.md")] false
    ⟨"gone.md", "h1", 0, 1⟩ "/vault/gone.md" (by decide) (by decide) (by decide)
    (by decide)).2.2

/-! ### Watcher debounce (C8) -/

theorem runWatcher_burst (W : Int) (cbs : List Nat) (k : String)
    (es : List (Int × FileChangeEvent)) :
    ∀ (t0 : Int) (e0 : FileChangeEvent), eventKey e0 = k →
      (∀ p ∈ es, eventKey p.2 = k) →
      List.Chain' (fun a b => a.1 ≤ b.1 ∧ b.1 - a.1 < W) ((t0, e0) :: es) →
      runWatcher W cbs ⟨[(k, e0)], some (t0 + W)⟩ es =
        (⟨[], none⟩,
          [⟨(es.getLastD (t0, e0)).1 + W,
            cbs.map fun c => (c, [(es.getLastD (t0, e0)).2])⟩]) := by
  induction es with
  | nil =>
    intro t0 e0 hk0 _ _
    simp [runWatcher, fireTimer]
  | cons p rest ih =>
    obtain ⟨t1, e1⟩ := p
    intro t0 e0 hk0 hks hchain
    rw [List.chain'_cons] at hchain
    have hlt : ¬ (t0 + W ≤ t1) := by
      have := hchain.1
      omega
    have hk1 : eventKey e1 = k := hks (t1, e1) (by simp)
    have hhandle : handleFileEvent W t1 e1 ⟨[(k, e0)], some (t0 + W)⟩ =
        ⟨[(k, e1)], some (t1 + W)⟩ := by
      simp [handleFileEvent, mapSet, hk1]
    have hlast : ((t1, e1) :: rest).getLastD (t0, e0) = rest.getLastD (t1, e1) := by
      cases rest <;> simp [List.getLastD]
    simp only [runWatcher, hlt, if_false, hhandle, hlast]
    exact ih t1 e1 hk1 (fun p hp => hks p (List.mem_cons_of_mem _ hp)) hchain.2

/-- C8: a burst of events for one (mapping, side, path) key, each arriving less
than the idle window after the one before, yields exactly one flush: it fires one
idle window after the burst's last event, its batch holds exactly one entry for
the key — the last event — it is delivered once to every registered callback, and
the pending map is empty afterwards. -/
theorem debounce_coalescing (W : Int) (cbs : List Nat) (t0 : Int)
    (e0 : FileChangeEvent) (es : List (Int × FileChangeEvent))
    (hks : ∀ p ∈ es, eventKey p.2 = eventKey e0)
    (hchain : List.Chain' (fun a b => a.1 ≤ b.1 ∧ b.1 - a.1 < W) ((t0, e0) :: es)) :
    runWatcher W cbs ⟨[], none⟩ ((t0, e0) :: es) =
      (⟨[], none⟩,
        [⟨(es.getLastD (t0, e0)).1 + W,
          cbs.map fun c => (c, [(es.getLastD (t0, e0)).2])⟩]) := by
  have h0 : handleFileEvent W t0 e0 ⟨[], none⟩ = ⟨[(eventKey e0, e0)], some (t0 + W)⟩ := by
    simp [handleFileEvent, mapSet]
  simp only [runWatcher, h0]
  exact runWatcher_burst W cbs (eventKey e0) es t0 e0 rfl hks hchain

/-- A raw watcher event of the given kind for one fixed file of one mapping. -/
def evW (t : EvType) : FileChangeEvent := ⟨"/proj/x.md", "x.md", t, "m1", .ai⟩

/-- C8 witness: three events for the same key at 0 ms, 100 ms and 200 ms with a
3000 ms idle window flush once, at 3200 ms, delivering the last event to both
registered callbacks. -/
theorem debounce_coalescing_witness :
    runWatcher 3000 [0, 1] ⟨[], none⟩
      [(0, evW .add), (100, evW .change), (200, evW .change)] =
      (⟨[], none⟩, [⟨3200, [(0, [evW .change]), (1, [evW .change])]⟩]) :=
  debounce_coalescing 3000 [0, 1] 0 (evW .add)
    [(100, evW .change), (200, evW .change)] (by decide) (by norm_num [List.chain'_cons])

/-! ### Result counters (C10) -/

/-- The run-long invariant tying the three counters to the successful entries of
the per-file result list. -/
def accInv (acc : Acc) : Prop :=
  acc.filesCopied + acc.filesSkipped + acc.filesDeleted =
    (acc.files.filter (·.success)).length

theorem length_filter_append_true (l : List SyncFileResult) (r : SyncFileResult)
    (hr : r.success = true) :
    ((l ++ [r]).filter (·.success)).length = (l.filter (·.success)).length + 1 := by
  simp [List.filter_append, hr]

theorem length_filter_append_false (l : List SyncFileResult) (r : SyncFileResult)
    (hr : r.success = false) :
    ((l ++ [r]).filter (·.success)).length = (l.filter (·.success)).length := by
  simp [List.filter_append, hr]

theorem accInv_pushCopied {acc : Acc} {r : SyncFileResult} (h : accInv acc)
    (hr : r.success = true) : accInv (pushCopied acc r) := by
  unfold accInv at h ⊢
  unfold pushCopied
  dsimp only
  rw [length_filter_append_true _ _ hr]
  omega

theorem accInv_pushSkipped {acc : Acc} {r : SyncFileResult} (h : accInv acc)
    (hr : r.success = true) : accInv (pushSkipped acc r) := by
  unfold accInv at h ⊢
  unfold pushSkipped
  dsimp only
  rw [length_filter_append_true _ _ hr]
  omega

theorem accInv_pushFailed {acc : Acc} {r : SyncFileResult} {msg : String} (h : accInv acc)
    (hr : r.success = false) : accInv (pushFailed acc r msg) := by
  unfold accInv at h ⊢
  unfold pushFailed
  dsimp only
  rw [length_filter_append_false _ _ hr]
  omega

theorem accInv_deletionStep (env : SyncEnv) (st : Acc × List FileInfo × List FileInfo)
    (d : DetectedDeletion) (h : accInv st.1) : accInv (deletionStep env st d).1 := by
  obtain ⟨acc, aiM, obsM⟩ := st
  have h' : accInv acc := h
  unfold deletionStep
  dsimp only
  by_cases hok : env.deleteOk d
  · rw [if_pos hok]
    by_cases hex : d.existsIn = .obsidian
    · rw [if_pos hex]
      unfold accInv at h' ⊢
      dsimp only
      rw [length_filter_append_true _ _ rfl]
      omega
    · rw [if_neg hex]
      unfold accInv at h' ⊢
      dsimp only
      rw [length_filter_append_true _ _ rfl]
      omega
  · rw [if_neg hok]
    exact accInv_pushFailed h' rfl

theorem accInv_applyResolution (b : Bool) (env : SyncEnv) (p : String)
    (dec : ResolutionDecision) (acc : Acc) (h : accInv acc) :
    accInv (applyResolution b env p dec acc) := by
  unfold applyResolution
  split
  · split
    · exact accInv_pushCopied h rfl
    · exact accInv_pushFailed h rfl
  · split
    · split
      · exact accInv_pushCopied h rfl
      · exact accInv_pushFailed h rfl
    · exact accInv_pushSkipped h rfl

theorem accInv_conflictsExt (acc : Acc) (cs : List ConflictInfo) (h : accInv acc) :
    accInv { acc with conflicts := cs } := h

theorem accInv_processAiFile (s : String) (b : Bool) (env : SyncEnv)
    (m : List FileInfo) (acc : Acc) (f : FileInfo) (h : accInv acc) :
    (match processAiFile s b env m acc f with
      | .ok a => accInv a
      | .error (a, _) => accInv a) := by
  unfold processAiFile
  cases hlk : lookupFile m f.relativePath with
  | none =>
    by_cases hc : env.copyOk .aiToObs f.relativePath
    · simp only [hc, if_true, reduceIte]
      exact accInv_pushCopied h rfl
    · simp only [hc, if_false, reduceIte]
      exact accInv_pushFailed h rfl
  | some obsFile =>
    by_cases hsame : compareFileTimes f obsFile = .same
    · simp only [hsame, if_true, reduceIte]
      exact accInv_pushSkipped h rfl
    · simp only [hsame, if_false, reduceIte]
      by_cases hask : s = "always-ask" ∧ env.hasConflictCallback = true
      · rw [if_pos hask]
        cases hud : env.userDecision f.relativePath with
        | none => exact h
        | some ud => exact accInv_applyResolution _ _ _ _ _ h
      · rw [if_neg hask]
        exact accInv_applyResolution _ _ _ _ _ h

theorem accInv_processObsFileBidir (env : SyncEnv) (aiMap : List FileInfo)
    (acc : Acc) (g : FileInfo) (h : accInv acc) :
    accInv (processObsFileBidir env aiMap acc g) := by
  unfold processObsFileBidir
  split
  · exact h
  · split
    · exact accInv_pushCopied h rfl
    · exact accInv_pushFailed h rfl

theorem accInv_processObsFileUni (env : SyncEnv) (aiMap : List FileInfo)
    (acc : Acc) (g : FileInfo) (h : accInv acc) :
    accInv (processObsFileUni env aiMap acc g) := by
  unfold processObsFileUni
  split
  · split
    · exact accInv_pushCopied h rfl
    · exact accInv_pushFailed h rfl
  · split
    · split
      · exact accInv_pushCopied h rfl
      · exact accInv_pushFailed h rfl
    · exact h

theorem foldl_preserves {σ α : Type} (P : σ → Prop) (g : σ → α → σ)
    (hg : ∀ s a, P s → P (g s a)) :
    ∀ (l : List α) (s : σ), P s → P (l.foldl g s) := by
  intro l
  induction l with
  | nil => intro s h; exact h
  | cons x xs ih => intro s h; exact ih (g s x) (hg s x h)

theorem foldlM_except_preserves {α : Type} (P : Acc → Prop)
    (g : Acc → α → Except (Acc × String) Acc)
    (hg : ∀ acc a, P acc →
      (match g acc a with | .ok a' => P a' | .error (a', _) => P a')) :
    ∀ (l : List α) (acc : Acc), P acc →
      (match l.foldlM g acc with | .ok a' => P a' | .error (a', _) => P a') := by
  intro l
  induction l with
  | nil => intro acc h; exact h
  | cons x xs ih =>
    intro acc h
    have hx := hg acc x h
    cases hgx : g acc x with
    | ok a' =>
      rw [hgx] at hx
      have heq : (x :: xs).foldlM g acc = xs.foldlM g a' := by
        rw [List.foldlM_cons, hgx]
        rfl
      rw [heq]
      exact ih a' hx
    | error e =>
      rw [hgx] at hx
      obtain ⟨a', msg⟩ := e
      have heq : (x :: xs).foldlM g acc = .error (a', msg) := by
        rw [List.foldlM_cons, hgx]
        rfl
      rw [heq]
      exact hx

theorem deletionPhase_inv (settings : EngineSettings) (env : SyncEnv)
    (dels : List DetectedDeletion) (aiF obsF : List FileInfo) :
    (match deletionPhase settings env dels aiF obsF with
      | .ok (acc, _, _) => accInv acc
      | .error (acc, _) => accInv acc) := by
  have h0 : accInv acc0 := by simp [accInv, acc0]
  have hfold : accInv (dels.foldl (deletionStep env) (acc0, aiF, obsF)).1 :=
    foldl_preserves (fun st => accInv st.1) (deletionStep env)
      (fun st d h => accInv_deletionStep env st d h) dels (acc0, aiF, obsF) h0
  unfold deletionPhase
  by_cases he : dels.isEmpty
  · rw [if_pos he]
    exact h0
  · rw [if_neg he]
    by_cases hc : (settings.confirmDeletions && env.hasDeletionCallback) = true
    · rw [if_pos hc]
      cases env.confirmAnswer with
      | none => exact h0
      | some sd =>
        cases sd with
        | true => exact hfold
        | false => exact h0
    · rw [if_neg hc]
      exact hfold

theorem mainLoops_inv (mapping : ProjectMapping) (eff : String) (env : SyncEnv)
    (aiMap obsMap : List FileInfo) (acc1 : Acc) (h : accInv acc1) :
    (match mainLoops mapping eff env aiMap obsMap acc1 with
      | .ok a => accInv a
      | .error (a, _) => accInv a) := by
  have h1 := foldlM_except_preserves accInv
    (processAiFile eff mapping.bidirectional env obsMap)
    (fun acc f hh => accInv_processAiFile eff mapping.bidirectional env obsMap acc f hh)
    aiMap acc1 h
  unfold mainLoops
  cases hf : aiMap.foldlM (processAiFile eff mapping.bidirectional env obsMap) acc1 with
  | error e =>
    rw [hf] at h1
    obtain ⟨a', msg⟩ := e
    exact h1
  | ok acc2 =>
    rw [hf] at h1
    have h2 : accInv acc2 := h1
    dsimp only
    by_cases hb : mapping.bidirectional = true
    · rw [if_pos hb]
      exact foldl_preserves accInv (processObsFileBidir env aiMap)
        (fun s a hh => accInv_processObsFileBidir env aiMap s a hh) obsMap acc2 h2
    · rw [if_neg hb]
      by_cases hdir : mapping.syncDirection = some .obsToAi
      · rw [if_pos hdir]
        exact foldl_preserves accInv (processObsFileUni env aiMap)
          (fun s a hh => accInv_processObsFileUni env aiMap s a hh) obsMap acc2 h2
      · rw [if_neg hdir]
        exact h2

/-- C10: every `SyncResult` of a sync run — the error path included — counts every
per-file entry in `filesProcessed`, and its copied + skipped + deleted counters
total exactly the successful entries; failed entries are processed but feed no
counter. -/
theorem syncResult_counts (mapping : ProjectMapping) (settings : EngineSettings)
    (env : SyncEnv) (store : SyncStateStore) (aiFiles obsFiles : List FileInfo)
    (now : Int) :
    ((syncMappingModel mapping settings env store aiFiles obsFiles now).1).filesProcessed =
      ((syncMappingModel mapping settings env store aiFiles obsFiles now).1).files.length ∧
    ((syncMappingModel mapping settings env store aiFiles obsFiles now).1).filesCopied +
      ((syncMappingModel mapping settings env store aiFiles obsFiles now).1).filesSkipped +
      ((syncMappingModel mapping settings env store aiFiles obsFiles now).1).filesDeleted =
      (((syncMappingModel mapping settings env store aiFiles obsFiles now).1).files.filter
        (·.success)).length := by
  have herr : ∀ acc msg, accInv acc →
      (errorResult acc msg).filesProcessed = (errorResult acc msg).files.length ∧
      (errorResult acc msg).filesCopied + (errorResult acc msg).filesSkipped +
        (errorResult acc msg).filesDeleted =
        ((errorResult acc msg).files.filter (·.success)).length :=
    fun acc msg h => ⟨rfl, h⟩
  have hok : ∀ acc, accInv acc →
      (okResult acc).filesProcessed = (okResult acc).files.length ∧
      (okResult acc).filesCopied + (okResult acc).filesSkipped +
        (okResult acc).filesDeleted =
        ((okResult acc).files.filter (·.success)).length :=
    fun acc h => ⟨rfl, h⟩
  have h0 : accInv acc0 := by simp [accInv, acc0]
  unfold syncMappingModel
  split
  · exact herr acc0 _ h0
  · split
    · exact herr acc0 _ h0
    · have hdel := deletionPhase_inv settings env
        (deletionsOf mapping settings store aiFiles obsFiles) aiFiles obsFiles
      cases hd : deletionPhase settings env
          (deletionsOf mapping settings store aiFiles obsFiles) aiFiles obsFiles with
      | error e =>
        rw [hd] at hdel
        obtain ⟨a, msg⟩ := e
        exact herr a msg hdel
      | ok tr =>
        rw [hd] at hdel
        obtain ⟨acc1, aiMap, obsMap⟩ := tr
        have hml := mainLoops_inv mapping
          (getEffectiveConflictResolution mapping settings) env aiMap obsMap acc1 hdel
        cases hm : mainLoops mapping
            (getEffectiveConflictResolution mapping settings) env aiMap obsMap acc1 with
        | error e =>
          rw [hm] at hml
          obtain ⟨a, msg⟩ := e
          simp only [hm]
          exact herr a msg hml
        | ok acc3 =>
          rw [hm] at hml
          simp only [hm]
          exact hok acc3 hml

/-! ### Snapshot replacement (C3) -/

/-- An oracle environment in which every external effect succeeds. -/
def envAllOk : SyncEnv :=
  ⟨fun _ _ => true, fun _ => true, false, some true, false, fun _ => none, true, true,
    fun _ => some "h"⟩

/-- A bidirectional mapping with no per-mapping overrides, used by the concrete runs. -/
def mappingW : ProjectMapping := ⟨"m1", true, none, none⟩

/-- A snapshot store holding a stale entry for `mappingW`, last synced at time 5. -/
def storeW : SyncStateStore := ⟨[("m1", ⟨"m1", 5, [], [], 1⟩)], 1⟩

/-- A one-file project-side listing. -/
def aiListW : List FileInfo := [⟨"a.md", "/ai/a.md", 0, 1⟩]

/-- C3 (counterexample): with deletion sync disabled, a fully successful run at
time 100 leaves the mapping's persisted snapshot untouched — still the stale
entry with `lastSyncTime` 5 — although the claim requires a wholesale rebuild
after every successful sync. -/
theorem syncMapping_snapshot_kept_when_deletionSync_off :
    (syncMappingModel mappingW ⟨"newer-wins", false, false⟩ envAllOk storeW
      aiListW [] 100).1.success = true ∧
    (syncMappingModel mappingW ⟨"newer-wins", false, false⟩ envAllOk storeW
      aiListW [] 100).1.error = none ∧
    (syncMappingModel mappingW ⟨"newer-wins", false, false⟩ envAllOk storeW
      aiListW [] 100).2 = storeW ∧
    getState (syncMappingModel mappingW ⟨"newer-wins", false, false⟩ envAllOk storeW
      aiListW [] 100).2 "m1" = some ⟨"m1", 5, [], [], 1⟩ ∧
    (5 : Int) ≠ 100 := by
  decide

/-- C3 (amended): when deletion sync is enabled, a run that ends without a
top-level error replaces the mapping's snapshot entry wholesale — freshly built
`FileState` lists for both sides, the new sync time, the current schema
version — with no dependence on the prior entry; and `updateState` always fully
replaces the entry it writes. -/
theorem syncMapping_snapshot_replaced (mapping : ProjectMapping)
    (settings : EngineSettings) (env : SyncEnv) (store : SyncStateStore)
    (aiFiles obsFiles : List FileInfo) (now : Int)
    (hdel : settings.syncDeletions = true)
    (herr : (syncMappingModel mapping settings env store aiFiles obsFiles now).1.error = none) :
    getState (syncMappingModel mapping settings env store aiFiles obsFiles now).2 mapping.id =
      some ⟨mapping.id, now, buildFileState aiFiles env.hash, buildFileState obsFiles env.hash,
        CURRENT_VERSION⟩ ∧
    (∀ (st : SyncStateStore) (mid : String) (a o : List SyncFileState) (n : Int),
      getState (updateState st mid a o n) mid = some ⟨mid, n, a, o, CURRENT_VERSION⟩) := by
  have hupd : ∀ (st : SyncStateStore) (mid : String) (a o : List SyncFileState) (n : Int),
      getState (updateState st mid a o n) mid = some ⟨mid, n, a, o, CURRENT_VERSION⟩ := by
    intro st mid a o n
    simp [getState, updateState, List.lookup]
  refine ⟨?_, hupd⟩
  unfold syncMappingModel at herr ⊢
  by_cases hv : (!env.validOk) = true
  · rw [if_pos hv] at herr
    simp [errorResult] at herr
  · rw [if_neg hv] at herr ⊢
    by_cases he : (!env.ensureOk) = true
    · rw [if_pos he] at herr
      simp [errorResult] at herr
    · rw [if_neg he] at herr ⊢
      cases hd : deletionPhase settings env
          (deletionsOf mapping settings store aiFiles obsFiles) aiFiles obsFiles with
      | error e =>
        obtain ⟨a, msg⟩ := e
        rw [hd] at herr
        simp [errorResult] at herr
      | ok tr =>
        rw [hd] at herr
        obtain ⟨acc1, aiMap, obsMap⟩ := tr
        dsimp only at herr ⊢
        cases hm : mainLoops mapping (getEffectiveConflictResolution mapping settings) env
            aiMap obsMap acc1 with
        | error e =>
          rw [hm] at herr
          obtain ⟨a, msg⟩ := e
          simp [errorResult] at herr
        | ok acc3 =>
          show getState (snapshotStep mapping settings env store aiFiles obsFiles now)
            mapping.id = _
          unfold snapshotStep
          rw [if_pos hdel]
          exact hupd store mapping.id _ _ now

/-- C3 witness: a concrete run with deletion sync enabled overwrites the stale
entry with the freshly built states and the run's sync time. -/
theorem syncMapping_snapshot_replaced_witness :
    getState (syncMappingModel mappingW ⟨"newer-wins", true, false⟩ envAllOk storeW
      aiListW [] 100).2 "m1" =
      some ⟨"m1", 100, buildFileState aiListW envAllOk.hash,
        buildFileState [] envAllOk.hash, CURRENT_VERSION⟩ :=
  (syncMapping_snapshot_replaced mappingW ⟨"newer-wins", true, false⟩ envAllOk storeW
    aiListW [] 100 rfl (by decide)).1

/-! ### Dry-run vs. real sync (C2) -/

theorem lookupFile_self {l : List FileInfo} {f : FileInfo}
    (hnd : (l.map FileInfo.relativePath).Nodup) (hf : f ∈ l) :
    lookupFile l f.relativePath = some f := by
  induction l with
  | nil => cases hf
  | cons x xs ih =>
    rw [List.map_cons, List.nodup_cons] at hnd
    rcases List.mem_cons.mp hf with rfl | hf2
    · unfold lookupFile
      exact List.find?_cons_of_pos _ (by simp)
    · have hne : ¬ (x.relativePath == f.relativePath) = true := by
        simp only [beq_iff_eq]
        intro he
        exact hnd.1 (he ▸ List.mem_map_of_mem _ hf2)
      unfold lookupFile at ih ⊢
      rw [@List.find?_cons_of_neg FileInfo (fun g => g.relativePath == f.relativePath)
        x xs hne]
      exact ih hnd.2 hf2

theorem lookupFile_mem {l : List FileInfo} {p : String} {a : FileInfo}
    (h : lookupFile l p = some a) : a ∈ l ∧ a.relativePath = p := by
  unfold lookupFile at h
  exact ⟨List.mem_of_find?_eq_some h, by simpa using List.find?_some h⟩

theorem compareFileTimes_gt_of_aiNewer {a o : FileInfo}
    (h : compareFileTimes a o = .aiNewer) : o.mtime < a.mtime := by
  unfold compareFileTimes at h
  split_ifs at h with h1 h2
  exact h2

theorem compareFileTimes_not_gt_of_obsNewer {a o : FileInfo}
    (h : compareFileTimes a o = .obsNewer) : ¬ o.mtime < a.mtime := by
  unfold compareFileTimes at h
  split_ifs at h with h1 h2
  exact h2

theorem map_filter_map_eq_filterMap {α β γ : Type} (g : α → β) (p : β → Bool)
    (h : β → γ) (l : List α) :
    ((l.map g).filter p).map h =
      l.filterMap fun a => if p (g a) then some (h (g a)) else none := by
  induction l with
  | nil => rfl
  | cons x xs ih =>
    by_cases hp : p (g x) <;>
      simp [List.filter_cons, List.filterMap_cons, hp, ih]

theorem filterMap_filter_map {α β γ : Type} (q : α → Option β) (p : β → Bool)
    (h : β → γ) (l : List α) :
    ((l.filterMap q).filter p).map h =
      l.filterMap fun a => (q a).bind fun r => if p r then some (h r) else none := by
  induction l with
  | nil => rfl
  | cons x xs ih =>
    cases hq : q x with
    | none => simp [List.filterMap_cons, hq, ih]
    | some r =>
      by_cases hp : p r <;>
        simp [List.filterMap_cons, List.filter_cons, hq, hp, ih]

theorem filterMap_guard_eq {α γ : Type} (p : α → Bool) (m : α → γ) (l : List α) :
    (l.filterMap fun a => if p a then some (m a) else none) = (l.filter p).map m := by
  induction l with
  | nil => rfl
  | cons x xs ih =>
    by_cases hp : p x <;> simp [List.filterMap_cons, List.filter_cons, hp, ih]

theorem option_some_or {β : Type} (b : β) (y : Option β) : (some b).or y = some b := rfl

theorem option_none_or {β : Type} (y : Option β) : Option.or none y = y := rfl

theorem filterMap_or_perm {α β : Type} (p u : α → Option β) (l : List α)
    (h : ∀ a ∈ l, (p a).isSome → u a = none) :
    (l.filterMap fun a => (p a).or (u a)).Perm (l.filterMap p ++ l.filterMap u) := by
  induction l with
  | nil => simp
  | cons x xs ih =>
    have ih' := ih fun a ha hs => h a (List.mem_cons_of_mem _ ha) hs
    cases hp : p x with
    | some b =>
      have hu : u x = none := h x (List.mem_cons_self _ _) (by simp [hp])
      simp only [List.filterMap_cons, hp, hu, option_some_or]
      exact ih'.cons b
    | none =>
      cases hu : u x with
      | none =>
        simp only [List.filterMap_cons, hp, hu, option_none_or]
        exact ih'
      | some c =>
        simp only [List.filterMap_cons, hp, hu, option_none_or]
        exact (ih'.cons c).trans List.perm_middle.symm

theorem cross_perm (aiFiles obsFiles : List FileInfo)
    (hai : (aiFiles.map FileInfo.relativePath).Nodup)
    (hobs : (obsFiles.map FileInfo.relativePath).Nodup) :
    ((aiFiles.map FileInfo.relativePath).filter (bothObsNewer aiFiles obsFiles)).Perm
      ((obsFiles.map FileInfo.relativePath).filter (bothObsNewer aiFiles obsFiles)) := by
  refine (List.perm_ext_iff_of_nodup (hai.filter _) (hobs.filter _)).mpr fun p => ?_
  simp only [List.mem_filter]
  constructor
  · rintro ⟨-, hP⟩
    refine ⟨?_, hP⟩
    unfold bothObsNewer at hP
    cases h1 : lookupFile aiFiles p <;> cases h2 : lookupFile obsFiles p <;>
      rw [h1, h2] at hP
    · simp at hP
    · simp at hP
    · simp at hP
    · obtain ⟨hmem, hrp⟩ := lookupFile_mem h2
      exact hrp ▸ List.mem_map_of_mem _ hmem
  · rintro ⟨-, hP⟩
    refine ⟨?_, hP⟩
    unfold bothObsNewer at hP
    cases h1 : lookupFile aiFiles p <;> cases h2 : lookupFile obsFiles p <;>
      rw [h1, h2] at hP
    · simp at hP
    · simp at hP
    · simp at hP
    · obtain ⟨hmem, hrp⟩ := lookupFile_mem h1
      exact hrp ▸ List.mem_map_of_mem _ hmem

theorem processAiFile_newerWins (bidir : Bool) (env : SyncEnv) (obsMap : List FileInfo)
    (acc : Acc) (f : FileInfo) :
    ∃ acc', processAiFile "newer-wins" bidir env obsMap acc f = .ok acc' ∧
      acc'.files = acc.files ++ [loop1Record bidir env obsMap f] := by
  unfold processAiFile loop1Record
  cases hlk : lookupFile obsMap f.relativePath with
  | none =>
    cases hc : env.copyOk .aiToObs f.relativePath <;> exact ⟨_, rfl, rfl⟩
  | some obsFile =>
    dsimp only
    by_cases hsame : compareFileTimes f obsFile = .same
    · rw [if_pos hsame, hsame]
      exact ⟨_, rfl, rfl⟩
    · rw [if_neg hsame]
      have hask : ¬ (("newer-wins" : String) = "always-ask" ∧ env.hasConflictCallback = true) := by
        rintro ⟨h, -⟩
        exact absurd h (by decide)
      rw [if_neg hask]
      have hres : (resolve "newer-wins"
          ⟨f.relativePath, f.absolutePath, obsFile.absolutePath, f.mtime, obsFile.mtime,
            f.size, obsFile.size⟩).decision =
          (if obsFile.mtime < f.mtime then ResolutionDecision.useAi
            else ResolutionDecision.useObsidian) :=
        resolveNewerWins_decision _
      cases hcc : compareFileTimes f obsFile with
      | same => exact absurd hcc hsame
      | aiNewer =>
        have hgt := compareFileTimes_gt_of_aiNewer hcc
        rw [hres, if_pos hgt] at *
        unfold applyResolution
        rw [if_pos rfl]
        cases hc : env.copyOk .aiToObs f.relativePath <;> exact ⟨_, rfl, rfl⟩
      | obsNewer =>
        have hgt := compareFileTimes_not_gt_of_obsNewer hcc
        rw [hres, if_neg hgt] at *
        unfold applyResolution
        rw [if_neg (by simp)]
        cases hb : bidir with
        | true =>
          rw [if_pos (by simp)]
          cases hc : env.copyOk .obsToAi f.relativePath <;> exact ⟨_, rfl, rfl⟩
        | false =>
          rw [if_neg (by simp)]
          exact ⟨_, rfl, rfl⟩

theorem foldlM_newerWins_files (bidir : Bool) (env : SyncEnv) (obsMap : List FileInfo) :
    ∀ (l : List FileInfo) (acc : Acc),
      ∃ acc', l.foldlM (processAiFile "newer-wins" bidir env obsMap) acc = .ok acc' ∧
        acc'.files = acc.files ++ l.map (loop1Record bidir env obsMap) := by
  intro l
  induction l with
  | nil => intro acc; exact ⟨acc, rfl, by simp⟩
  | cons x xs ih =>
    intro acc
    obtain ⟨a1, h1, hf1⟩ := processAiFile_newerWins bidir env obsMap acc x
    obtain ⟨a2, h2, hf2⟩ := ih a1
    refine ⟨a2, ?_, ?_⟩
    · rw [List.foldlM_cons, h1]
      exact h2
    · rw [hf2, hf1, List.map_cons, List.append_assoc, List.singleton_append]

theorem processObsFileBidir_files (env : SyncEnv) (aiMap : List FileInfo) (acc : Acc)
    (g : FileInfo) :
    (processObsFileBidir env aiMap acc g).files =
      acc.files ++ (loop2Record env aiMap g).toList := by
  unfold processObsFileBidir loop2Record
  by_cases hlk : (lookupFile aiMap g.relativePath).isSome
  · rw [if_pos hlk, if_pos hlk]
    simp
  · rw [if_neg hlk, if_neg hlk]
    cases hc : env.copyOk .obsToAi g.relativePath <;> simp [pushCopied, pushFailed]

theorem foldl_files_filterMap {g : Acc → FileInfo → Acc}
    {recOf : FileInfo → Option SyncFileResult}
    (hg : ∀ acc f, (g acc f).files = acc.files ++ (recOf f).toList) :
    ∀ (l : List FileInfo) (acc : Acc),
      (l.foldl g acc).files = acc.files ++ l.filterMap recOf := by
  intro l
  induction l with
  | nil => intro acc; simp
  | cons x xs ih =>
    intro acc
    rw [List.foldl_cons, ih, hg, List.filterMap_cons]
    cases recOf x <;> simp

theorem syncFiles_newerWins (mapping : ProjectMapping) (settings : EngineSettings)
    (env : SyncEnv) (store : SyncStateStore) (aiFiles obsFiles : List FileInfo) (now : Int)
    (heff : getEffectiveConflictResolution mapping settings = "newer-wins")
    (hvalid : env.validOk = true) (hensure : env.ensureOk = true)
    (hdel : deletionsOf mapping settings store aiFiles obsFiles = [])
    (hdir : mapping.bidirectional = true ∨ mapping.syncDirection ≠ some .obsToAi) :
    ((syncMappingModel mapping settings env store aiFiles obsFiles now).1).files =
      aiFiles.map (loop1Record mapping.bidirectional env obsFiles) ++
        (if mapping.bidirectional then obsFiles.filterMap (loop2Record env aiFiles)
          else []) := by
  have hv : ¬ ((!env.validOk) = true) := by simp [hvalid]
  have he : ¬ ((!env.ensureOk) = true) := by simp [hensure]
  unfold syncMappingModel
  rw [if_neg hv, if_neg he, hdel]
  have hdp : deletionPhase settings env [] aiFiles obsFiles = .ok (acc0, aiFiles, obsFiles) :=
    rfl
  rw [hdp]
  dsimp only
  rw [heff]
  unfold mainLoops
  obtain ⟨acc2, h2, hf2⟩ :=
    foldlM_newerWins_files mapping.bidirectional env obsFiles aiFiles acc0
  rw [h2]
  dsimp only
  cases hb : mapping.bidirectional with
  | true =>
    rw [if_pos rfl]
    show (okResult (obsFiles.foldl (processObsFileBidir env aiFiles) acc2)).files = _
    unfold okResult
    dsimp only
    rw [foldl_files_filterMap (processObsFileBidir_files env aiFiles) obsFiles acc2, hf2]
    simp [acc0, hb]
  | false =>
    rw [if_neg (by simp)]
    rcases hdir with hdir | hdir
    · rw [hb] at hdir
      cases hdir
    · rw [if_neg hdir]
      show (okResult acc2).files = _
      unfold okResult
      dsimp only
      rw [hf2]
      simp [acc0, hb]

/-- The cross-direction planning entry shared by both listings' loops: an
update toward the project side for a path whose Obsidian copy is newer. -/
def crossEntry (aiFiles obsFiles : List FileInfo) (f : FileInfo) :
    Option (String × SyncAction × SyncDirectionType) :=
  if bothObsNewer aiFiles obsFiles f.relativePath then
    some (f.relativePath, SyncAction.update, SyncDirectionType.obsToAi)
  else none

theorem pointwise_ai_bidir (env : SyncEnv) (aiFiles obsFiles : List FileInfo)
    (obsDocsPath : String) (hai : (aiFiles.map FileInfo.relativePath).Nodup) :
    ∀ f ∈ aiFiles,
      (if !inTolerance aiFiles obsFiles (loop1Record true env obsFiles f).file then
        some (projRes (loop1Record true env obsFiles f)) else none) =
      ((planAi true obsDocsPath obsFiles f).map projPlan).or
        (crossEntry aiFiles obsFiles f) := by
  intro f hf
  have hself : lookupFile aiFiles f.relativePath = some f := lookupFile_self hai hf
  cases hlk : lookupFile obsFiles f.relativePath with
  | none =>
    cases hc : env.copyOk .aiToObs f.relativePath <;>
      simp [loop1Record, planAi, inTolerance, crossEntry, bothObsNewer, projRes,
        projPlan, hself, hlk, hc]
  | some o =>
    cases hcc : compareFileTimes f o with
    | same =>
      simp [loop1Record, planAi, inTolerance, crossEntry, bothObsNewer, projRes,
        projPlan, hself, hlk, hcc, option_none_or]
    | aiNewer =>
      cases hc : env.copyOk .aiToObs f.relativePath <;>
        simp [loop1Record, planAi, inTolerance, crossEntry, bothObsNewer, projRes,
          projPlan, hself, hlk, hcc, hc]
    | obsNewer =>
      cases hc : env.copyOk .obsToAi f.relativePath <;>
        simp [loop1Record, planAi, inTolerance, crossEntry, bothObsNewer, projRes,
          projPlan, hself, hlk, hcc, hc, option_none_or]

theorem pointwise_obs_bidir (env : SyncEnv) (aiFiles obsFiles : List FileInfo)
    (aiDocsPath : String) (hobs : (obsFiles.map FileInfo.relativePath).Nodup) :
    ∀ g ∈ obsFiles,
      (planObs true aiDocsPath aiFiles g).map projPlan =
      ((loop2Record env aiFiles g).bind fun r =>
        if !inTolerance aiFiles obsFiles r.file then some (projRes r) else none).or
        (crossEntry aiFiles obsFiles g) := by
  intro g hg
  have hself : lookupFile obsFiles g.relativePath = some g := lookupFile_self hobs hg
  cases hlk : lookupFile aiFiles g.relativePath with
  | none =>
    cases hc : env.copyOk .obsToAi g.relativePath <;>
      simp [planObs, loop2Record, inTolerance, crossEntry, bothObsNewer, projRes,
        projPlan, hself, hlk, hc, option_some_or]
  | some a =>
    cases hcc : compareFileTimes a g with
    | same =>
      simp [planObs, loop2Record, inTolerance, crossEntry, bothObsNewer, projRes,
        projPlan, hself, hlk, hcc, option_none_or]
    | aiNewer =>
      simp [planObs, loop2Record, inTolerance, crossEntry, bothObsNewer, projRes,
        projPlan, hself, hlk, hcc, option_none_or]
    | obsNewer =>
      simp [planObs, loop2Record, inTolerance, crossEntry, bothObsNewer, projRes,
        projPlan, hself, hlk, hcc, option_none_or]

theorem pointwise_ai_uni (env : SyncEnv) (aiFiles obsFiles : List FileInfo)
    (obsDocsPath : String) (hai : (aiFiles.map FileInfo.relativePath).Nodup) :
    ∀ f ∈ aiFiles,
      (if !inTolerance aiFiles obsFiles (loop1Record false env obsFiles f).file then
        some (projRes (loop1Record false env obsFiles f)) else none) =
      (planAi false obsDocsPath obsFiles f).map projPlan := by
  intro f hf
  have hself : lookupFile aiFiles f.relativePath = some f := lookupFile_self hai hf
  cases hlk : lookupFile obsFiles f.relativePath with
  | none =>
    cases hc : env.copyOk .aiToObs f.relativePath <;>
      simp [loop1Record, planAi, inTolerance, projRes, projPlan, hself, hlk, hc]
  | some o =>
    cases hcc : compareFileTimes f o with
    | same => simp [loop1Record, planAi, inTolerance, projRes, projPlan, hself, hlk, hcc]
    | aiNewer =>
      cases hc : env.copyOk .aiToObs f.relativePath <;>
        simp [loop1Record, planAi, inTolerance, projRes, projPlan, hself, hlk, hcc, hc]
    | obsNewer =>
      simp [loop1Record, planAi, inTolerance, projRes, projPlan, hself, hlk, hcc]

theorem disj_ai (aiFiles obsFiles : List FileInfo)
    (obsDocsPath : String) (hai : (aiFiles.map FileInfo.relativePath).Nodup) :
    ∀ f ∈ aiFiles,
      (((planAi true obsDocsPath obsFiles f).map projPlan)).isSome →
        crossEntry aiFiles obsFiles f = none := by
  intro f hf hs
  have hself : lookupFile aiFiles f.relativePath = some f := lookupFile_self hai hf
  cases hlk : lookupFile obsFiles f.relativePath with
  | none => simp [crossEntry, bothObsNewer, hself, hlk]
  | some o =>
    cases hcc : compareFileTimes f o with
    | same => simp [planAi, hlk, hcc] at hs
    | aiNewer => simp [crossEntry, bothObsNewer, hself, hlk, hcc]
    | obsNewer => simp [planAi, hlk, hcc] at hs

theorem disj_obs (env : SyncEnv) (aiFiles obsFiles : List FileInfo) :
    ∀ g ∈ obsFiles,
      (((loop2Record env aiFiles g).bind fun r =>
        if !inTolerance aiFiles obsFiles r.file then some (projRes r) else none)).isSome →
        crossEntry aiFiles obsFiles g = none := by
  intro g hg hs
  cases hlk : lookupFile aiFiles g.relativePath with
  | none => simp [crossEntry, bothObsNewer, hlk]
  | some a => simp [loop2Record, hlk] at hs

theorem cross_filterMap_perm (aiFiles obsFiles : List FileInfo)
    (hai : (aiFiles.map FileInfo.relativePath).Nodup)
    (hobs : (obsFiles.map FileInfo.relativePath).Nodup) :
    (aiFiles.filterMap (crossEntry aiFiles obsFiles)).Perm
      (obsFiles.filterMap (crossEntry aiFiles obsFiles)) := by
  have hshape : ∀ (l : List FileInfo),
      l.filterMap (crossEntry aiFiles obsFiles) =
        ((l.map FileInfo.relativePath).filter (bothObsNewer aiFiles obsFiles)).map
          fun p => (p, SyncAction.update, SyncDirectionType.obsToAi) := by
    intro l
    rw [← filterMap_guard_eq (bothObsNewer aiFiles obsFiles)
      (fun p => (p, SyncAction.update, SyncDirectionType.obsToAi)),
      List.filterMap_map]
    rfl
  rw [hshape aiFiles, hshape obsFiles]
  exact (cross_perm aiFiles obsFiles hai hobs).map _

/-- C2 (amended): a dry run performs the same validation and deletion detection
as the real sync and, when the effective conflict strategy is newer-wins, no
deletions are detected and the mapping is bidirectional or project-to-vault, its
planned (file, action, direction) set is exactly the real run's executed actions
minus the skip records the real run emits for pairs inside the mtime tolerance;
the dry run performs no I/O — its model neither consults the effect oracles nor
returns a store. -/
theorem dryRun_plans_match_newerWins (mapping : ProjectMapping)
    (settings : EngineSettings) (env : SyncEnv) (store : SyncStateStore)
    (aiFiles obsFiles : List FileInfo) (now : Int) (aiDocsPath obsDocsPath : String)
    (heff : getEffectiveConflictResolution mapping settings = "newer-wins")
    (hvalid : env.validOk = true) (hensure : env.ensureOk = true)
    (hdel : deletionsOf mapping settings store aiFiles obsFiles = [])
    (hdir : mapping.bidirectional = true ∨ mapping.syncDirection ≠ some .obsToAi)
    (hai : (aiFiles.map FileInfo.relativePath).Nodup)
    (hobs : (obsFiles.map FileInfo.relativePath).Nodup) :
    ((dryRunMappingModel mapping settings store aiFiles obsFiles env.validOk
        aiDocsPath obsDocsPath).plannedActions.map projPlan).Perm
      ((((syncMappingModel mapping settings env store aiFiles obsFiles now).1).files.filter
        fun r => !inTolerance aiFiles obsFiles r.file).map projRes) ∧
    (dryRunMappingModel mapping settings store aiFiles obsFiles env.validOk
      aiDocsPath obsDocsPath).plannedDeletions = [] ∧
    (dryRunMappingModel mapping settings store aiFiles obsFiles env.validOk
      aiDocsPath obsDocsPath).errors = [] := by
  have hdry : dryRunMappingModel mapping settings store aiFiles obsFiles env.validOk
      aiDocsPath obsDocsPath =
      { plannedActions :=
          aiFiles.filterMap (planAi mapping.bidirectional obsDocsPath obsFiles) ++
            (if mapping.bidirectional || mapping.syncDirection = some .obsToAi then
              obsFiles.filterMap (planObs mapping.bidirectional aiDocsPath aiFiles)
            else [])
        plannedDeletions := deletionsOf mapping settings store aiFiles obsFiles
        errors := [] } := by
    unfold dryRunMappingModel
    rw [if_neg (by simp [hvalid])]
  rw [hdry,
    syncFiles_newerWins mapping settings env store aiFiles obsFiles now heff hvalid
      hensure hdel hdir]
  refine ⟨?_, hdel, rfl⟩
  dsimp only
  cases hb : mapping.bidirectional with
  | false =>
    have hdir2 : mapping.syncDirection ≠ some .obsToAi := by
      rcases hdir with h | h
      · rw [hb] at h; cases h
      · exact h
    rw [if_neg (by simp [hdir2]), if_neg (by simp), List.append_nil, List.append_nil,
      map_filter_map_eq_filterMap (loop1Record false env obsFiles) _ projRes aiFiles,
      List.map_filterMap]
    exact List.Perm.of_eq
      (List.filterMap_congr (pointwise_ai_uni env aiFiles obsFiles obsDocsPath hai)).symm
  | true =>
    rw [if_pos (by simp), if_pos rfl, List.map_append, List.filter_append,
      List.map_append, List.map_filterMap, List.map_filterMap,
      map_filter_map_eq_filterMap (loop1Record true env obsFiles) _ projRes aiFiles,
      filterMap_filter_map (loop2Record env aiFiles) _ projRes obsFiles]
    have hq1 : aiFiles.filterMap
        (fun a => if (fun r => !inTolerance aiFiles obsFiles r.file)
            (loop1Record true env obsFiles a) = true then
          some (projRes (loop1Record true env obsFiles a)) else none) =
        aiFiles.filterMap fun f =>
          ((planAi true obsDocsPath obsFiles f).map projPlan).or
            (crossEntry aiFiles obsFiles f) :=
      List.filterMap_congr (pointwise_ai_bidir env aiFiles obsFiles obsDocsPath hai)
    have hq2 : obsFiles.filterMap
        (fun x => (planObs true aiDocsPath aiFiles x).map projPlan) =
        obsFiles.filterMap fun g =>
          ((loop2Record env aiFiles g).bind fun r =>
            if !inTolerance aiFiles obsFiles r.file then some (projRes r) else none).or
            (crossEntry aiFiles obsFiles g) :=
      List.filterMap_congr (pointwise_obs_bidir env aiFiles obsFiles aiDocsPath hobs)
    rw [hq1, hq2]
    have hpermAi := filterMap_or_perm
      (fun f => (planAi true obsDocsPath obsFiles f).map projPlan)
      (crossEntry aiFiles obsFiles) aiFiles
      (disj_ai aiFiles obsFiles obsDocsPath hai)
    have hpermObs := filterMap_or_perm
      (fun g => (loop2Record env aiFiles g).bind fun r =>
        if !inTolerance aiFiles obsFiles r.file then some (projRes r) else none)
      (crossEntry aiFiles obsFiles) obsFiles
      (disj_obs env aiFiles obsFiles)
    have hcross := cross_filterMap_perm aiFiles obsFiles hai hobs
    refine (hpermObs.append_left _).trans ?_
    refine List.Perm.trans ?_ (hpermAi.symm.append_right _)
    rw [List.append_assoc]
    exact List.Perm.append_left _
      ((hcross.symm.append_left _).trans List.perm_append_comm)

/-- The project-side listing of the concrete C2 runs. -/
def aiListW2 : List FileInfo := [⟨"a.md", "/ai/a.md", 5000, 10⟩, ⟨"b.md", "/ai/b.md", 0, 5⟩]

/-- The vault-side listing of the concrete C2 runs. -/
def obsListW2 : List FileInfo := [⟨"b.md", "/obs/b.md", 500, 5⟩, ⟨"c.md", "/obs/c.md", 7, 3⟩]

/-- C2 (counterexample): with effective strategy obsidian-wins, on a shared path
whose project copy is newer, the dry run plans `update ai-to-obs` while the real
sync executes `update obs-to-ai` — the dry-run plan does not match what
syncMapping would do, because planning ignores the conflict strategy. -/
theorem dryRun_strategy_divergence :
    ((dryRunMappingModel mappingW ⟨"obsidian-wins", false, false⟩ emptyStore
        [⟨"a.md", "/ai/a.md", 5000, 10⟩] [⟨"a.md", "/obs/a.md", 1000, 20⟩] true
        "/ai" "/obs").plannedActions.map projPlan) =
      [("a.md", SyncAction.update, SyncDirectionType.aiToObs)] ∧
    (((syncMappingModel mappingW ⟨"obsidian-wins", false, false⟩ envAllOk emptyStore
        [⟨"a.md", "/ai/a.md", 5000, 10⟩] [⟨"a.md", "/obs/a.md", 1000, 20⟩] 0).1).files.map
      projRes) =
      [("a.md", SyncAction.update, SyncDirectionType.obsToAi)] ∧
    SyncDirectionType.aiToObs ≠ SyncDirectionType.obsToAi := by
  decide

/-- C2 witness: a concrete bidirectional newer-wins run (one project-newer file,
one shared in-tolerance file, one vault-only file) on which the amended
equivalence is instantiated. -/
theorem dryRun_plans_match_newerWins_witness :
    ((dryRunMappingModel mappingW ⟨"newer-wins", false, false⟩ emptyStore aiListW2
        obsListW2 envAllOk.validOk "/ai" "/obs").plannedActions.map projPlan).Perm
      ((((syncMappingModel mappingW ⟨"newer-wins", false, false⟩ envAllOk emptyStore
          aiListW2 obsListW2 0).1).files.filter
        fun r => !inTolerance aiListW2 obsListW2 r.file).map projRes) :=
  (dryRun_plans_match_newerWins mappingW ⟨"newer-wins", false, false⟩ envAllOk emptyStore
    aiListW2 obsListW2 0 "/ai" "/obs" rfl rfl rfl rfl (Or.inl rfl) (by decide)
    (by decide)).1

end EvcSync
